import Mathlib

/-!
Verification of the i3-workspace-groups name codec and numbering engine.

The Python sources (`i3wsgroups/workspace_names.py`, `i3wsgroups/controller.py`,
`i3wsgroups/i3_proxy.py`, `i3wsgroups/i3_workspace_groups.py`) are shallowly
embedded below.  Python strings are modelled as lists of characters (`PyStr`),
Python `int` as `Int`, `Optional[T]` as `Option T`, and code that can raise
(assertions, `int()` parse failures that are not caught) returns `Option`.
-/

/-- Python strings are modelled as lists of characters. -/
abbrev PyStr := List Char

/-- The reserved section delimiter: the Unicode zero-width space U+200B
(`SECTIONS_DELIM` in `workspace_names.py`). -/
def DELIM : Char := '\u200B'

/-- Capacity constant `_MAX_GROUPS_PER_MONITOR` from `workspace_names.py`. -/
def _MAX_GROUPS_PER_MONITOR : Nat := 1000

/-- Capacity constant `_MAX_WORKSPACES_PER_GROUP` from `workspace_names.py`. -/
def _MAX_WORKSPACES_PER_GROUP : Nat := 100

/-! ### Decimal integer printing and parsing

Models Python `str(n)` for an `int` `n`, and Python `int(s)` on the string
grammar the codec manipulates: an optional sign followed by decimal digits.
`parseInt` returns `none` where Python `int()` raises `ValueError`. -/

/-- Value of a decimal digit character, `none` for any other character. -/
def digitVal (c : Char) : Option Nat :=
  if '0' ≤ c ∧ c ≤ '9' then some (c.toNat - '0'.toNat) else none

/-- Accumulator loop of decimal parsing (Horner scheme, most significant first). -/
def parseDigitsAux : List Char → Nat → Option Nat
  | [], acc => some acc
  | c :: cs, acc =>
    match digitVal c with
    | some d => parseDigitsAux cs (acc * 10 + d)
    | none => none

/-- Parses a nonempty all-digit string to a natural number. -/
def parseDigits (s : List Char) : Option Nat :=
  match s with
  | [] => none
  | _ => parseDigitsAux s 0

/-- Models Python `int(s)`: an optional sign followed by decimal digits. -/
def parseInt (s : PyStr) : Option Int :=
  match s with
  | [] => none
  | c :: rest =>
    if c = '-' then (parseDigits rest).map (fun n => -(n : Int))
    else if c = '+' then (parseDigits rest).map (fun n => (n : Int))
    else (parseDigits (c :: rest)).map (fun n => (n : Int))

/-- Fuel-driven digit accumulation (structural recursion, so that concrete
names evaluate inside the kernel). -/
def natToStrAux : Nat → Nat → List Char → List Char
  | 0, _, acc => acc
  | fuel + 1, n, acc =>
    if n < 10 then Nat.digitChar (n % 10) :: acc
    else natToStrAux fuel (n / 10) (Nat.digitChar (n % 10) :: acc)

/-- Decimal representation of a natural number (models Python `str`). -/
def natToStr (n : Nat) : PyStr := natToStrAux (n + 1) n []

/-- Decimal representation of an integer (models Python `str`). -/
def intToStr (i : Int) : PyStr :=
  if i < 0 then '-' :: natToStr i.natAbs else natToStr i.natAbs

/-! ### Name codec (`workspace_names.py`)

`WorkspaceGroupingMetadata` mirrors the Python class of the same name: every
field defaults to `None` in the Python constructor, so every field is an
`Option` here.  `create_name` returns `none` where the Python function fails
its `assert` statements, and `parse_name` is total exactly as in the source. -/

structure WorkspaceGroupingMetadata where
  global_number : Option Int
  group : Option PyStr
  static_name : Option PyStr
  dynamic_name : Option PyStr
  local_number : Option Int
deriving DecidableEq

/-- `maybe_remove_prefix_colons` from `workspace_names.py`: drop one leading
colon if present. -/
def maybe_remove_prefix_colons (s : PyStr) : PyStr :=
  match s with
  | [] => []
  | c :: rest => if c = ':' then rest else c :: rest

/-- `maybe_remove_suffix_colons` from `workspace_names.py`: drop one trailing
colon if present. -/
def maybe_remove_suffix_colons (s : PyStr) : PyStr :=
  if s.getLast? = some ':' then s.dropLast else s

/-- `sanitize_section_value` from `workspace_names.py`: replace every delimiter
by a percent sign, then drop one leading colon. -/
def sanitize_section_value (s : PyStr) : PyStr :=
  maybe_remove_prefix_colons (s.map (fun c => if c = DELIM then '%' else c))

/-- `parse_global_number_section` from `workspace_names.py`.  The Python
function returns `None` on a falsy section and otherwise calls `int`, which can
raise; callers guard the raising case, so both are `none` here. -/
def parse_global_number_section (s : PyStr) : Option Int :=
  if s = [] then none else parseInt (maybe_remove_suffix_colons s)

/-- `is_recognized_name_format` from `workspace_names.py`. -/
def is_recognized_name_format (name : PyStr) : Bool :=
  let sections := name.splitOn DELIM
  if sections.length ≠ 5 then false
  else if sections[0]! = [] then true
  else (parse_global_number_section (sections[0]!)).isSome

/-- `parse_name` from `workspace_names.py`.  The Python function starts from
`WorkspaceGroupingMetadata(group='')`, hence `group` is `some []` whenever a
section does not overwrite it, and `dynamic_name` stays `none` on the
unrecognized-name fallback path. -/
def parse_name (name : PyStr) : WorkspaceGroupingMetadata :=
  if is_recognized_name_format name then
    let sections := name.splitOn DELIM
    { global_number := parse_global_number_section (sections[0]!)
      group := if sections[1]! = [] then some []
               else some (maybe_remove_suffix_colons (sections[1]!))
      static_name := some (maybe_remove_prefix_colons (sections[2]!))
      dynamic_name := some (maybe_remove_prefix_colons (sections[3]!))
      local_number := if sections[4]! = [] then none
                      else parseInt (maybe_remove_prefix_colons (sections[4]!)) }
  else
    { global_number := none
      group := some []
      static_name := some (sanitize_section_value name)
      dynamic_name := none
      local_number := none }

/-- One iteration of the section loop in `create_name` for the string-valued
sections (`static_name`, `dynamic_name`): a falsy value encodes as the empty
section, otherwise a colon is prepended once some earlier section was
non-empty. -/
def encodeStrSection (v : Option PyStr) (need : Bool) : PyStr × Bool :=
  match v with
  | none => ([], need)
  | some s =>
    if s = [] then ([], need)
    else if need then (':' :: s, true)
    else (s, true)

/-- One iteration of the section loop in `create_name` for `local_number`;
Python treats the integer `0` as falsy. -/
def encodeIntSection (v : Option Int) (need : Bool) : PyStr × Bool :=
  match v with
  | none => ([], need)
  | some n =>
    if n = 0 then ([], need)
    else if need then (':' :: intToStr n, true)
    else (intToStr n, true)

/-- `create_name` from `workspace_names.py`: `none` models the failing
`assert` when `global_number` or `group` is unset. -/
def create_name (m : WorkspaceGroupingMetadata) : Option PyStr :=
  match m.global_number, m.group with
  | some gn, some g =>
    let s0 := intToStr gn ++ [':']
    let r2 := encodeStrSection m.static_name (!g.isEmpty)
    let r3 := encodeStrSection m.dynamic_name r2.2
    let r4 := encodeIntSection m.local_number r3.2
    some (List.intercalate [DELIM] [s0, g, r2.1, r3.1, r4.1])
  | _, _ => none

/-! ### Workspaces and the local-number allocator (`workspace_names.py`)

A workspace (`i3ipc.Con`) is modelled by its identifier and its current name
(`Ws` below).  Python sets of integers are modelled as lists, used only
through membership, emptiness and maximum, which are insensitive to
duplicates and order. -/

structure Ws where
  id : Nat
  name : PyStr
deriving DecidableEq

/-- `get_used_local_numbers` from `workspace_names.py`. -/
def get_used_local_numbers (wss : List Ws) : List Int :=
  wss.filterMap (fun w => (parse_name w.name).local_number)

/-- Maximum of a list, `0` when empty: models the
`last_used_local_number = max(used) if used else 0` idiom. -/
def maxOr0 : List Int → Int
  | [] => 0
  | x :: xs => xs.foldl max x

/-- Scanning loop of `get_lowest_free_local_numbers`. -/
def lowestFreeAux (num : Nat) (used : List Int) : List Int → List Int → List Int
  | [], acc => acc
  | n :: ns, acc =>
    if acc.length = num then acc
    else if n ∈ used then lowestFreeAux num used ns acc
    else lowestFreeAux num used ns (acc ++ [n])

/-- The scan range `range(1, _MAX_WORKSPACES_PER_GROUP)` of
`get_lowest_free_local_numbers`, as integers. -/
def localNumberCandidates : List Int :=
  (List.range' 1 (_MAX_WORKSPACES_PER_GROUP - 1)).map Int.ofNat

/-- `get_lowest_free_local_numbers` from `workspace_names.py`; `none` models
the failing `assert len(local_numbers) == num`. -/
def get_lowest_free_local_numbers (num : Nat) (used : List Int) : Option (List Int) :=
  let result := lowestFreeAux num used localNumberCandidates []
  if result.length = num then some result else none

/-- Preserve-mode loop of `compute_local_numbers` (the branch taken when
`renumber_workspaces` is false). -/
def preserveNumbers (used : List Int) : Int → List Ws → List Int
  | _, [] => []
  | last, w :: ws =>
    match (parse_name w.name).local_number with
    | some n =>
      if n ∈ used then (last + 1) :: preserveNumbers used (last + 1) ws
      else n :: preserveNumbers used last ws
    | none => (last + 1) :: preserveNumbers used (last + 1) ws

/-- Local numbers used by the group's workspaces on other monitors: the
`used_local_numbers` computation at the top of `compute_local_numbers`. -/
def otherUsed (monitorWs allWs : List Ws) : List Int :=
  get_used_local_numbers (allWs.filter (fun w => w.id ∉ monitorWs.map Ws.id))

/-- `compute_local_numbers` from `workspace_names.py`. -/
def compute_local_numbers (monitorWs allWs : List Ws) (renumber : Bool) :
    Option (List Int) :=
  let used := otherUsed monitorWs allWs
  if renumber then get_lowest_free_local_numbers monitorWs.length used
  else some (preserveNumbers used (maxOr0 used) monitorWs)

/-- `compute_global_number` from `workspace_names.py`; `none` models the
failing `assert local_number < _MAX_WORKSPACES_PER_GROUP`. -/
def compute_global_number (monitorIndex groupIndex localNumber : Int) : Option Int :=
  if localNumber < (_MAX_WORKSPACES_PER_GROUP : Int) then
    some (monitorIndex * ((_MAX_GROUPS_PER_MONITOR : Int) * (_MAX_WORKSPACES_PER_GROUP : Int)) +
      (_MAX_WORKSPACES_PER_GROUP : Int) * groupIndex + localNumber)
  else none

/-- `global_number_to_group_index` from `workspace_names.py`.  Python `%` and
`//` follow the floor convention, hence `Int.fmod` and `Int.fdiv`. -/
def global_number_to_group_index (g : Int) : Int :=
  Int.fdiv (Int.fmod g ((_MAX_GROUPS_PER_MONITOR : Int) * (_MAX_WORKSPACES_PER_GROUP : Int)))
    (_MAX_WORKSPACES_PER_GROUP : Int)

/-- `global_number_to_local_number` from `workspace_names.py`. -/
def global_number_to_local_number (g : Int) : Int :=
  Int.fmod g (_MAX_WORKSPACES_PER_GROUP : Int)

/-! ### Grouping and the group-index resolver (`workspace_names.py`) -/

/-- Appends `w` to the entry of `g`, or adds a new entry at the end: one step
of the insertion-ordered dictionary build in `get_group_to_workspaces`. -/
def insertGrouped (acc : List (PyStr × List Ws)) (g : PyStr) (w : Ws) :
    List (PyStr × List Ws) :=
  match acc with
  | [] => [(g, [w])]
  | (g', ws) :: rest =>
    if g' = g then (g', ws ++ [w]) :: rest
    else (g', ws) :: insertGrouped rest g w

/-- `get_group` from `workspace_names.py` (the parsed record always carries a
group string, so `getD` never takes its default). -/
def get_group (w : Ws) : PyStr := (parse_name w.name).group.getD []

/-- `get_group_to_workspaces` from `workspace_names.py`: an insertion-ordered
mapping, modelled as an association list with unique keys. -/
def get_group_to_workspaces (wss : List Ws) : List (PyStr × List Ws) :=
  wss.foldl (fun acc w => insertGrouped acc (get_group w) w) []

/-- Python `dict.get(key, default)` on an association list. -/
def dictGet {α : Type} (l : List (PyStr × α)) (g : PyStr) (d : α) : α :=
  (List.lookup g l).getD d

/-- The `group_to_index` table built by `get_group_index`: for each group, the
group index recovered from the first workspace carrying a decoded global
number (the inner loop with its `break`). -/
def groupRecoveredIndices : List (PyStr × List Ws) → List (PyStr × Int)
  | [] => []
  | (g, wss) :: rest =>
    match ((wss.filterMap (fun w => (parse_name w.name).global_number)).head?).map
        (fun n => (g, global_number_to_group_index n)) with
    | none => groupRecoveredIndices rest
    | some e => e :: groupRecoveredIndices rest

/-- `get_group_index` from `workspace_names.py`. -/
def get_group_index (targetGroup : PyStr)
    (groupToWorkspaces : List (PyStr × List Ws)) : Int :=
  match List.lookup targetGroup (groupRecoveredIndices groupToWorkspaces) with
  | some i => i
  | none =>
    match (groupRecoveredIndices groupToWorkspaces).map Prod.snd with
    | [] => 0
    | v :: vs => vs.foldl max v + 1

/-! ### Group contexts (`i3_workspace_groups.py` and `controller.py`) -/

/-- `WorkspaceGroupsError` raised by `NamedGroupContext.get_group_name` in
`i3_workspace_groups.py` for an unknown group; the payload mirrors the
message's group name and known-group list. -/
inductive WorkspaceGroupsError where
  | unknownGroup (group : PyStr) (known : List PyStr)
deriving DecidableEq

/-- `NamedGroupContext.get_group_name` from `i3_workspace_groups.py`: the
variant that requires the group to pre-exist. -/
def namedGroupContext_get_group_name (groupName : PyStr)
    (gtw : List (PyStr × List Ws)) : Except WorkspaceGroupsError PyStr :=
  if groupName ∈ gtw.map Prod.fst then Except.ok groupName
  else Except.error (.unknownGroup groupName (gtw.map Prod.fst))

/-- `NamedGroupContext.get_group_name` from `controller.py`: the tolerant
variant used at creation call sites, which never fails. -/
def controllerNamedGroupContext_get_group_name (groupName : PyStr) : PyStr :=
  groupName

/-! ### The organize pass (`controller.py` with `i3_proxy.py`)

State is threaded explicitly: the window tree's workspaces form a store from
identifiers to current names, and each rename updates it, exactly as the
Python code mutates the shared `workspace.name` attributes.  Icon resolution
is an external collaborator; it is modelled with icons disabled, in which case
the code always assigns the empty `dynamic_name`. -/

/-- Name of workspace `wsId` in the store (`workspace.name` in Python). -/
def storeName (store : List Ws) (wsId : Nat) : PyStr :=
  match store.find? (fun w => w.id = wsId) with
  | some w => w.name
  | none => []

/-- The mutation `workspace.name = new_name` on the shared tree objects. -/
def storeSetName (store : List Ws) (wsId : Nat) (newName : PyStr) : List Ws :=
  store.map (fun w => if w.id = wsId then { w with name := newName } else w)

/-- `I3Proxy.rename_workspace` from `i3_proxy.py`: the issued command list is
empty exactly when old and new names coincide. -/
def rename_workspace (oldName newName : PyStr) : List (PyStr × PyStr) :=
  if oldName = newName then [] else [(oldName, newName)]

/-- The metadata overwrite in the body of the organize loop: keep the parsed
record but replace group, local number, global number and (icons disabled)
the dynamic name. -/
def overwriteMetadata (m : WorkspaceGroupingMetadata) (g : PyStr) (ln gnum : Int) :
    WorkspaceGroupingMetadata :=
  { m with group := some g, local_number := some ln,
           global_number := some gnum, dynamic_name := some [] }

/-- The inner `for workspace, local_number in zip(...)` loop of
`organize_workspace_groups`: recompute each workspace's metadata, re-encode,
ask the proxy to rename, and update the shared name.  Returns the list of
(old, new) name pairs, the issued rename commands, and the final store;
`none` models an uncaught assertion from `compute_global_number` or
`create_name`. -/
def renameLoop (monitorIndex groupIndex : Int) (g : PyStr) :
    List (Nat × Int) → List Ws →
    Option (List (PyStr × PyStr) × List (PyStr × PyStr) × List Ws)
  | [], store => some ([], [], store)
  | (wsId, ln) :: rest, store =>
    (compute_global_number monitorIndex groupIndex ln).bind (fun gnum =>
      (create_name (overwriteMetadata (parse_name (storeName store wsId)) g ln gnum)).bind
        (fun newName =>
          (renameLoop monitorIndex groupIndex g rest
              (storeSetName store wsId newName)).map (fun trip =>
            ((storeName store wsId, newName) :: trip.1,
             rename_workspace (storeName store wsId) newName ++ trip.2.1, trip.2.2))))

/-- Outcome of an organize pass: the (workspace, group, local-number)
assignments in processing order, the (old, new) pairs passed to the proxy,
the rename commands actually issued, and the final store. -/
structure OrganizeResult where
  assignments : List (Nat × PyStr × Int)
  renames : List (PyStr × PyStr)
  commands : List (PyStr × PyStr)
  store : List Ws
deriving DecidableEq

/-- The outer `for group_index, (group, workspaces) in enumerate(...)` loop of
`organize_workspace_groups` in `controller.py`.  `groupAll` is the
group-to-all-workspaces mapping computed once at the start of the pass (as
identifier lists; names are re-read from the current store, matching the
shared mutable `i3ipc.Con` objects in Python). -/
def organizeGroups (monitorIndex : Int) (renumber : Bool)
    (groupAll : List (PyStr × List Nat)) :
    List (PyStr × List Nat) → Int → List Ws → Option OrganizeResult
  | [], _, store => some ⟨[], [], [], store⟩
  | (g, wsIds) :: rest, groupIndex, store =>
    (compute_local_numbers (wsIds.map (fun i => Ws.mk i (storeName store i)))
        ((dictGet groupAll g []).map (fun i => Ws.mk i (storeName store i)))
        renumber).bind (fun lns =>
      (renameLoop monitorIndex groupIndex g (wsIds.zip lns) store).bind (fun trip =>
        (organizeGroups monitorIndex renumber groupAll rest
            (groupIndex + 1) trip.2.2).map (fun r =>
          ⟨(wsIds.zip lns).map (fun p => (p.1, g, p.2)) ++ r.assignments,
           trip.1 ++ r.renames, trip.2.1 ++ r.commands, r.store⟩)))

/-- `WorkspaceGroupsController.organize_workspace_groups` from
`controller.py`, over an ordered sequence of (group, monitor workspaces)
pairs and the tree snapshot `store`. -/
def organize_workspace_groups (monitorIndex : Int) (renumber : Bool)
    (groups : List (PyStr × List Nat)) (store : List Ws) : Option OrganizeResult :=
  let groupAll := (get_group_to_workspaces store).map (fun p => (p.1, p.2.map Ws.id))
  organizeGroups monitorIndex renumber groupAll groups 0 store

/-! ### Spec-side definitions

The following definitions transcribe the specification's wording, for the
claims that are refinements of it; each is compared with the corresponding
definition embedded from the source. -/

/-- Sanitization exactly as the specification's words describe it: "delimiter
characters replaced with a visually similar safe character", with no other
change.  Compare `sanitize_section_value`, which also strips one leading
colon. -/
def specSanitizeReplaceOnly (s : PyStr) : PyStr :=
  s.map (fun c => if c = DELIM then '%' else c)

/-- Preserve-mode numbering as the claim words it: keep an existing number not
claimed by `used`; otherwise assign `max(used, already-assigned) + 1` and
extend the assigned set (`acc`). -/
def claimPreserve (used : List Int) : List Int → List (Option Int) → List Int
  | _, [] => []
  | acc, some n :: os =>
    if n ∈ used then
      (maxOr0 (acc ++ used) + 1) :: claimPreserve used ((maxOr0 (acc ++ used) + 1) :: acc) os
    else n :: claimPreserve used acc os
  | acc, none :: os =>
    (maxOr0 (acc ++ used) + 1) :: claimPreserve used ((maxOr0 (acc ++ used) + 1) :: acc) os

/-- Whether preserve mode reassigns this workspace: its decoded local number
is absent or claimed by another monitor. -/
def isReassign (used : List Int) (w : Ws) : Bool :=
  match (parse_name w.name).local_number with
  | some n => n ∈ used
  | none => true

/-- Number of reassigned workspaces strictly before position `i`. -/
def reassignCnt (used : List Int) (ws : List Ws) (i : Nat) : Nat :=
  ((ws.take i).filter (isReassign used)).length

/-- The free local numbers in scan order: the candidate range with `used`
removed. -/
def freeLocalNumbers (used : List Int) : List Int :=
  localNumberCandidates.filter (fun n => n ∉ used)

/-- Claim C4 as stated: after any organize pass, in either mode, distinct
processed workspaces carry distinct (group, local number) pairs. -/
def organizeAssignsDistinctPairs : Prop :=
  ∀ (monitorIndex : Int) (renumber : Bool) (groups : List (PyStr × List Nat))
    (store : List Ws) (r : OrganizeResult),
    organize_workspace_groups monitorIndex renumber groups store = some r →
    r.assignments.Pairwise (fun a b => a.1 ≠ b.1 → a.2 ≠ b.2)

/-! ## Theorems -/

theorem natToStrAux_eq :
    ∀ (fuel n : Nat) (acc : List Char), n < 10 ^ (fuel + 1) →
      natToStrAux (fuel + 1) n acc =
        (if n = 0 then ['0']
         else ((Nat.digits 10 n).map Nat.digitChar).reverse) ++ acc := by
  intro fuel
  induction fuel with
  | zero =>
    intro n acc h
    have hn : n < 10 := by simpa using h
    rw [natToStrAux, if_pos hn]
    by_cases h0 : n = 0
    · subst h0; rfl
    · rw [if_neg h0, Nat.digits_def' (by norm_num : 1 < 10) (Nat.pos_of_ne_zero h0)]
      have hdiv : n / 10 = 0 := Nat.div_eq_of_lt hn
      have hmod : n % 10 = n := Nat.mod_eq_of_lt hn
      simp [hdiv, hmod]
  | succ fuel ih =>
    intro n acc h
    by_cases hn : n < 10
    · rw [natToStrAux, if_pos hn]
      by_cases h0 : n = 0
      · subst h0; rfl
      · rw [if_neg h0, Nat.digits_def' (by norm_num : 1 < 10) (Nat.pos_of_ne_zero h0)]
        have hdiv : n / 10 = 0 := Nat.div_eq_of_lt hn
        have hmod : n % 10 = n := Nat.mod_eq_of_lt hn
        simp [hdiv, hmod]
    · rw [natToStrAux, if_neg hn]
      have hdivlt : n / 10 < 10 ^ (fuel + 1) := by
        have h10 : (10 : Nat) ^ (fuel + 1 + 1) = 10 ^ (fuel + 1) * 10 := by ring
        exact Nat.div_lt_of_lt_mul (by rw [← h10, Nat.mul_comm] at *; omega)
      rw [ih (n / 10) (Nat.digitChar (n % 10) :: acc) hdivlt]
      have h0 : n ≠ 0 := by omega
      have hd0 : n / 10 ≠ 0 := by omega
      rw [if_neg hd0, if_neg h0,
        Nat.digits_def' (by norm_num : 1 < 10) (Nat.pos_of_ne_zero h0)]
      simp

theorem natToStr_eq (n : Nat) :
    natToStr n =
      if n = 0 then ['0'] else ((Nat.digits 10 n).map Nat.digitChar).reverse := by
  unfold natToStr
  rw [natToStrAux_eq n n [] ?_, List.append_nil]
  calc n < 10 ^ n := Nat.lt_pow_self (by norm_num) n
    _ ≤ 10 ^ (n + 1) := Nat.pow_le_pow_right (by norm_num) (Nat.le_succ n)

theorem digitVal_digitChar {d : Nat} (h : d < 10) :
    digitVal (Nat.digitChar d) = some d := by
  interval_cases d <;> decide

theorem parseDigitsAux_digits (ds : List Nat) (h : ∀ d ∈ ds, d < 10) :
    ∀ acc, parseDigitsAux (ds.map Nat.digitChar) acc =
      some (ds.foldl (fun a d => a * 10 + d) acc) := by
  induction ds with
  | nil => intro acc; rfl
  | cons d ds ih =>
    intro acc
    have hd : d < 10 := h d (List.mem_cons_self d ds)
    simp only [List.map_cons, parseDigitsAux, digitVal_digitChar hd, List.foldl_cons]
    exact ih (fun x hx => h x (List.mem_cons_of_mem d hx)) (acc * 10 + d)

theorem foldl_horner_reverse (ds : List Nat) :
    ∀ acc, (ds.reverse).foldl (fun a d => a * 10 + d) acc =
      acc * 10 ^ ds.length + Nat.ofDigits 10 ds := by
  induction ds with
  | nil => intro acc; simp [Nat.ofDigits]
  | cons d ds ih =>
    intro acc
    simp only [List.reverse_cons, List.foldl_append, ih acc, List.foldl_cons,
      List.foldl_nil, List.length_cons, Nat.ofDigits_cons]
    ring

theorem parseDigits_natToStr (n : Nat) : parseDigits (natToStr n) = some n := by
  rw [natToStr_eq]
  by_cases h0 : n = 0
  · subst h0; decide
  · have hne : Nat.digits 10 n ≠ [] := Nat.digits_ne_nil_iff_ne_zero.mpr h0
    have hlt : ∀ d ∈ (Nat.digits 10 n).reverse, d < 10 := by
      intro d hd
      exact Nat.digits_lt_base (by norm_num) (List.mem_reverse.mp hd)
    have hmap : (if n = 0 then ['0']
        else ((Nat.digits 10 n).map Nat.digitChar).reverse) =
          ((Nat.digits 10 n).reverse).map Nat.digitChar := by
      simp [h0, List.map_reverse]
    have hnil : ((Nat.digits 10 n).reverse).map Nat.digitChar ≠ [] := by
      simp [hne]
    have key : parseDigits (((Nat.digits 10 n).reverse).map Nat.digitChar) =
        parseDigitsAux (((Nat.digits 10 n).reverse).map Nat.digitChar) 0 := by
      cases hm : ((Nat.digits 10 n).reverse).map Nat.digitChar with
      | nil => exact absurd hm hnil
      | cons c cs => rfl
    rw [hmap, key, parseDigitsAux_digits _ hlt 0, foldl_horner_reverse]
    simp [Nat.ofDigits_digits]

theorem natToStr_ne_nil (n : Nat) : natToStr n ≠ [] := by
  rw [natToStr_eq]
  by_cases h0 : n = 0
  · simp [h0]
  · rw [if_neg h0]
    simp [Nat.digits_ne_nil_iff_ne_zero.mpr h0]

theorem mem_natToStr {c : Char} {n : Nat} (hc : c ∈ natToStr n) :
    '0' ≤ c ∧ c ≤ '9' := by
  rw [natToStr_eq] at hc
  by_cases h0 : n = 0
  · simp only [h0, if_true, List.mem_singleton] at hc
    subst hc; exact ⟨le_refl _, by decide⟩
  · rw [if_neg h0] at hc
    rw [List.mem_reverse, List.mem_map] at hc
    obtain ⟨d, hd, rfl⟩ := hc
    have hlt : d < 10 := Nat.digits_lt_base (by norm_num) hd
    interval_cases d <;> exact ⟨by decide, by decide⟩

theorem digit_ne_delim {c : Char} (h : '0' ≤ c ∧ c ≤ '9') : c ≠ DELIM := by
  rintro rfl
  exact absurd h.2 (by decide)

theorem digit_ne_colon {c : Char} (h : '0' ≤ c ∧ c ≤ '9') : c ≠ ':' := by
  rintro rfl
  exact absurd h.2 (by decide)

theorem intToStr_ne_nil (i : Int) : intToStr i ≠ [] := by
  unfold intToStr
  split
  · simp
  · exact natToStr_ne_nil _

theorem delim_not_mem_intToStr (i : Int) : DELIM ∉ intToStr i := by
  unfold intToStr
  split <;> intro hmem
  · rcases List.mem_cons.mp hmem with h | h
    · exact absurd h (by decide)
    · exact digit_ne_delim (mem_natToStr h) rfl
  · exact digit_ne_delim (mem_natToStr hmem) rfl

theorem colon_not_mem_intToStr (i : Int) : ':' ∉ intToStr i := by
  unfold intToStr
  split <;> intro hmem
  · rcases List.mem_cons.mp hmem with h | h
    · exact absurd h (by decide)
    · exact digit_ne_colon (mem_natToStr h) rfl
  · exact digit_ne_colon (mem_natToStr hmem) rfl

theorem parseInt_natToStr (m : Nat) : parseInt (natToStr m) = some (m : Int) := by
  cases hs : natToStr m with
  | nil => exact absurd hs (natToStr_ne_nil m)
  | cons c cs =>
    have hcmem : c ∈ natToStr m := by rw [hs]; exact List.mem_cons_self c cs
    have hb := mem_natToStr hcmem
    have hminus : c ≠ '-' := by rintro rfl; exact absurd hb.1 (by decide)
    have hplus : c ≠ '+' := by rintro rfl; exact absurd hb.1 (by decide)
    have : parseInt (c :: cs) = (parseDigits (c :: cs)).map (fun n => (n : Int)) := by
      simp [parseInt, hminus, hplus]
    rw [this, ← hs, parseDigits_natToStr]
    rfl

theorem parseInt_intToStr (i : Int) : parseInt (intToStr i) = some i := by
  unfold intToStr
  by_cases hneg : i < 0
  · rw [if_pos hneg]
    have h1 : parseInt ('-' :: natToStr i.natAbs) =
        (parseDigits (natToStr i.natAbs)).map (fun n => -(n : Int)) := by
      simp [parseInt]
    rw [h1, parseDigits_natToStr]
    show some (-((i.natAbs : Nat) : Int)) = some i
    congr 1
    omega
  · rw [if_neg hneg, parseInt_natToStr]
    congr 1
    omega

/-! ### Round-trip lemmas for the codec -/

theorem strip_suffix_concat (l : PyStr) :
    maybe_remove_suffix_colons (l ++ [':']) = l := by
  unfold maybe_remove_suffix_colons
  rw [List.getLast?_concat]
  simp [List.dropLast_concat]

theorem strip_suffix_of_no_colon {s : PyStr} (h : s.getLast? ≠ some ':') :
    maybe_remove_suffix_colons s = s := by
  unfold maybe_remove_suffix_colons
  rw [if_neg h]

theorem strip_prefix_colon (s : PyStr) :
    maybe_remove_prefix_colons (':' :: s) = s := by
  simp [maybe_remove_prefix_colons]

theorem head_ne_colon_of_not_mem {s : PyStr} (h : ':' ∉ s) :
    s.head? ≠ some ':' := by
  cases s with
  | nil => simp
  | cons c cs =>
    simp only [List.head?_cons, ne_eq, Option.some_inj]
    rintro rfl
    exact h (List.mem_cons_self _ _)

theorem strip_prefix_of_no_colon {s : PyStr} (h : s.head? ≠ some ':') :
    maybe_remove_prefix_colons s = s := by
  cases s with
  | nil => rfl
  | cons c cs =>
    have hc : c ≠ ':' := by
      rintro rfl
      exact h rfl
    simp [maybe_remove_prefix_colons, hc]

theorem encodeStr_delim {st : PyStr} (hd : DELIM ∉ st) (need : Bool) :
    DELIM ∉ (encodeStrSection (some st) need).1 := by
  simp only [encodeStrSection]
  by_cases hst : st = []
  · simp [hst]
  · rw [if_neg hst]
    cases need with
    | false => simpa using hd
    | true =>
      simp only [if_true]
      intro hmem
      rcases List.mem_cons.mp hmem with h | h
      · exact absurd h.symm (by decide)
      · exact hd h

theorem encodeStr_decode {st : PyStr} (hcolon : st.head? ≠ some ':') (need : Bool) :
    maybe_remove_prefix_colons (encodeStrSection (some st) need).1 = st := by
  simp only [encodeStrSection]
  by_cases hst : st = []
  · simp [hst, maybe_remove_prefix_colons]
  · rw [if_neg hst]
    cases need with
    | false => simpa using strip_prefix_of_no_colon hcolon
    | true => simpa using strip_prefix_colon st

theorem encodeStr_need {st : PyStr} (need : Bool) :
    (encodeStrSection (some st) need).2 = (need || !st.isEmpty) := by
  simp only [encodeStrSection]
  by_cases hst : st = []
  · simp [hst]
  · rw [if_neg hst]
    cases need with
    | false => simp [hst]
    | true => simp

theorem encodeIntSection_some (n : Int) (need : Bool) :
    encodeIntSection (some n) need =
      if n = 0 then ([], need)
      else if need then (':' :: intToStr n, true)
      else (intToStr n, true) := rfl

theorem encodeInt_delim (v : Option Int) (need : Bool) :
    DELIM ∉ (encodeIntSection v need).1 := by
  cases v with
  | none => simp [encodeIntSection]
  | some n =>
    rw [encodeIntSection_some]
    by_cases hn : n = 0
    · simp [hn]
    · rw [if_neg hn]
      cases need with
      | false => simpa using delim_not_mem_intToStr n
      | true =>
        simp only [if_true]
        intro hmem
        rcases List.mem_cons.mp hmem with h | h
        · exact absurd h.symm (by decide)
        · exact delim_not_mem_intToStr n h

theorem encodeInt_decode {v : Option Int} (hv : v ≠ some 0) (need : Bool) :
    (if (encodeIntSection v need).1 = [] then none
     else parseInt (maybe_remove_prefix_colons (encodeIntSection v need).1)) = v := by
  cases v with
  | none => simp [encodeIntSection]
  | some n =>
    have hn : n ≠ 0 := by
      rintro rfl
      exact hv rfl
    rw [encodeIntSection_some, if_neg hn]
    cases need with
    | false =>
      simp only [Bool.false_eq_true, if_false]
      rw [if_neg (intToStr_ne_nil n),
        strip_prefix_of_no_colon (head_ne_colon_of_not_mem (colon_not_mem_intToStr n)),
        parseInt_intToStr]
    | true =>
      simp only [if_true]
      rw [if_neg (List.cons_ne_nil _ _), strip_prefix_colon, parseInt_intToStr]

theorem global_section_decode (gn : Int) :
    parse_global_number_section (intToStr gn ++ [':']) = some gn := by
  unfold parse_global_number_section
  rw [if_neg (by simp), strip_suffix_concat, parseInt_intToStr]

theorem is_recognized_of_five {name s0 s1 s2 s3 s4 : PyStr}
    (h : name.splitOn DELIM = [s0, s1, s2, s3, s4])
    (h0 : s0 = [] ∨ (parse_global_number_section s0).isSome = true) :
    is_recognized_name_format name = true := by
  unfold is_recognized_name_format
  rw [h]
  rcases h0 with h0 | h0 <;> simp [h0]

theorem parse_name_of_five {name s0 s1 s2 s3 s4 : PyStr}
    (h : name.splitOn DELIM = [s0, s1, s2, s3, s4])
    (h0 : s0 = [] ∨ (parse_global_number_section s0).isSome = true) :
    parse_name name =
      { global_number := parse_global_number_section s0
        group := if s1 = [] then some []
                 else some (maybe_remove_suffix_colons s1)
        static_name := some (maybe_remove_prefix_colons s2)
        dynamic_name := some (maybe_remove_prefix_colons s3)
        local_number := if s4 = [] then none
                        else parseInt (maybe_remove_prefix_colons s4) } := by
  unfold parse_name
  rw [if_pos (is_recognized_of_five h h0), h]
  simp

/-! ### Allocator lemmas -/

theorem lowestFreeAux_eq (num : Nat) (used : List Int) :
    ∀ (cands acc : List Int), acc.length ≤ num →
      lowestFreeAux num used cands acc =
        acc ++ (cands.filter (fun n => n ∉ used)).take (num - acc.length) := by
  intro cands
  induction cands with
  | nil => intro acc _; simp [lowestFreeAux]
  | cons n ns ih =>
    intro acc hle
    by_cases heq : acc.length = num
    · simp [lowestFreeAux, heq]
    · have hlt : acc.length < num := lt_of_le_of_ne hle heq
      by_cases hmem : n ∈ used
      · rw [lowestFreeAux, if_neg heq, if_pos hmem, ih acc hle, List.filter_cons]
        simp [hmem]
      · rw [lowestFreeAux, if_neg heq, if_neg hmem, ih (acc ++ [n]) (by simp; omega),
          List.filter_cons]
        have h1 : num - acc.length = (num - (acc ++ [n]).length) + 1 := by simp; omega
        simp [hmem, h1, List.append_assoc]

theorem get_lowest_free_eq (num : Nat) (used : List Int) :
    get_lowest_free_local_numbers num used =
      if ((freeLocalNumbers used).take num).length = num
      then some ((freeLocalNumbers used).take num) else none := by
  unfold get_lowest_free_local_numbers freeLocalNumbers
  rw [lowestFreeAux_eq num used localNumberCandidates [] (by simp)]
  simp

theorem mem_candidates {x : Int} (h : x ∈ localNumberCandidates) :
    1 ≤ x ∧ x ≤ 99 := by
  unfold localNumberCandidates _MAX_WORKSPACES_PER_GROUP at h
  rw [List.mem_map] at h
  obtain ⟨k, hk, rfl⟩ := h
  rw [List.mem_range'_1] at hk
  refine ⟨show (1 : Int) ≤ (k : Nat) from ?_, show ((k : Nat) : Int) ≤ 99 from ?_⟩ <;> omega

theorem candidates_mem {x : Int} (h1 : 1 ≤ x) (h2 : x ≤ 99) :
    x ∈ localNumberCandidates := by
  unfold localNumberCandidates _MAX_WORKSPACES_PER_GROUP
  rw [List.mem_map]
  refine ⟨x.toNat, ?_, show ((x.toNat : Nat) : Int) = x from by omega⟩
  rw [List.mem_range'_1]
  omega

theorem candidates_pairwise : List.Pairwise (· < ·) localNumberCandidates := by
  unfold localNumberCandidates
  refine List.Pairwise.map Int.ofNat (fun a b h => show ((a : Nat) : Int) < ((b : Nat) : Int) from ?_) (List.pairwise_lt_range' 1 _)
  exact_mod_cast h

theorem freeLocalNumbers_pairwise (used : List Int) :
    List.Pairwise (· < ·) (freeLocalNumbers used) :=
  List.Pairwise.sublist (List.filter_sublist _) candidates_pairwise

theorem mem_freeLocalNumbers {x : Int} {used : List Int} :
    x ∈ freeLocalNumbers used ↔ (1 ≤ x ∧ x ≤ 99) ∧ x ∉ used := by
  unfold freeLocalNumbers
  rw [List.mem_filter]
  constructor
  · rintro ⟨hc, hx⟩
    exact ⟨mem_candidates hc, by simpa using hx⟩
  · rintro ⟨⟨h1, h2⟩, hx⟩
    exact ⟨candidates_mem h1 h2, by simpa using hx⟩

/-! ## Claims -/

/-- C5: for monitor index `mi ≥ 0`, group index `0 ≤ gi < 1000` and local
number `0 ≤ ln < 100`, `compute_global_number mi gi ln` is
`mi * 100000 + gi * 100 + ln`; the mapping is injective on these ranges and
the two inverse functions recover `gi` and `ln`; in particular the values at
(0,0,1), (0,1,1) and (1,1,1) are 1, 101 and 100101. -/
theorem c5_global_number_formula (mi gi ln mi2 gi2 ln2 : Int)
    (hmi : 0 ≤ mi) (hgi0 : 0 ≤ gi) (hgi : gi < 1000)
    (hln0 : 0 ≤ ln) (hln : ln < 100)
    (hmi2 : 0 ≤ mi2) (hgi20 : 0 ≤ gi2) (hgi2 : gi2 < 1000)
    (hln20 : 0 ≤ ln2) (hln2 : ln2 < 100) :
    compute_global_number mi gi ln = some (mi * 100000 + gi * 100 + ln)
    ∧ global_number_to_group_index (mi * 100000 + gi * 100 + ln) = gi
    ∧ global_number_to_local_number (mi * 100000 + gi * 100 + ln) = ln
    ∧ (mi * 100000 + gi * 100 + ln = mi2 * 100000 + gi2 * 100 + ln2 →
        mi = mi2 ∧ gi = gi2 ∧ ln = ln2)
    ∧ compute_global_number 0 0 1 = some 1
    ∧ compute_global_number 0 1 1 = some 101
    ∧ compute_global_number 1 1 1 = some 100101 := by
  have hW : (_MAX_WORKSPACES_PER_GROUP : Int) = 100 := by
    norm_num [_MAX_WORKSPACES_PER_GROUP]
  have hG : (_MAX_GROUPS_PER_MONITOR : Int) = 1000 := by
    norm_num [_MAX_GROUPS_PER_MONITOR]
  refine ⟨?_, ?_, ?_, fun h => ⟨by omega, by omega, by omega⟩,
    by decide, by decide, by decide⟩
  · unfold compute_global_number
    rw [hW, hG, if_pos (by omega)]
    congr 1
    ring
  · unfold global_number_to_group_index
    rw [hW, hG, Int.fmod_eq_emod _ (by norm_num), Int.fdiv_eq_ediv _ (by norm_num)]
    omega
  · unfold global_number_to_local_number
    rw [hW, Int.fmod_eq_emod _ (by norm_num)]
    omega

/-- Witness for C5 at monitor 2, group 3, local number 4. -/
theorem c5_witness :
    compute_global_number 2 3 4 = some (2 * 100000 + 3 * 100 + 4)
    ∧ global_number_to_group_index (2 * 100000 + 3 * 100 + 4) = 3
    ∧ global_number_to_local_number (2 * 100000 + 3 * 100 + 4) = 4
    ∧ ((2 : Int) * 100000 + 3 * 100 + 4 = 2 * 100000 + 3 * 100 + 4 →
        (2 : Int) = 2 ∧ (3 : Int) = 3 ∧ (4 : Int) = 4)
    ∧ compute_global_number 0 0 1 = some 1
    ∧ compute_global_number 0 1 1 = some 101
    ∧ compute_global_number 1 1 1 = some 100101 :=
  c5_global_number_formula 2 3 4 2 3 4 (by decide) (by decide) (by decide)
    (by decide) (by decide) (by decide) (by decide) (by decide) (by decide) (by decide)

/-- C6: `get_lowest_free_local_numbers` returns the first `num` integers at
least 1 that are not in `used` (ascending, pairwise free) when enough exist
in the capacity-bounded scan range, and fails (assertion, modelled `none`)
when fewer exist; in particular `(1, {1,2,3}) ↦ [4]` and `(2, {2}) ↦ [1,3]`. -/
theorem c6_lowest_free_allocation (num : Nat) (used : List Int) :
    ((freeLocalNumbers used).length < num →
      get_lowest_free_local_numbers num used = none)
    ∧ (num ≤ (freeLocalNumbers used).length →
        get_lowest_free_local_numbers num used =
          some ((freeLocalNumbers used).take num)
        ∧ ((freeLocalNumbers used).take num).length = num
        ∧ List.Pairwise (· < ·) ((freeLocalNumbers used).take num)
        ∧ (∀ x ∈ (freeLocalNumbers used).take num, 1 ≤ x ∧ x ∉ used)
        ∧ (∀ y : Int, 1 ≤ y → y ∉ used → y ∉ (freeLocalNumbers used).take num →
            ∀ x ∈ (freeLocalNumbers used).take num, x < y))
    ∧ get_lowest_free_local_numbers 1 [1, 2, 3] = some [4]
    ∧ get_lowest_free_local_numbers 2 [2] = some [1, 3] := by
  have hF := freeLocalNumbers_pairwise used
  refine ⟨?_, ?_, by decide, by decide⟩
  · intro hlt
    rw [get_lowest_free_eq, if_neg]
    rw [List.length_take]
    omega
  · intro hle
    have hlen : ((freeLocalNumbers used).take num).length = num := by
      rw [List.length_take]; omega
    refine ⟨by rw [get_lowest_free_eq, if_pos hlen], hlen, ?_, ?_, ?_⟩
    · exact List.Pairwise.sublist (List.take_sublist _ _) hF
    · intro x hx
      have hmem := mem_freeLocalNumbers.mp ((List.take_subset _ _) hx)
      exact ⟨hmem.1.1, hmem.2⟩
    · intro y h1 h2 hynot x hx
      by_cases hy99 : y ≤ 99
      · have hyF : y ∈ freeLocalNumbers used :=
          mem_freeLocalNumbers.mpr ⟨⟨h1, hy99⟩, h2⟩
        have hsplit := List.take_append_drop num (freeLocalNumbers used)
        have hpw : List.Pairwise (· < ·)
            ((freeLocalNumbers used).take num ++ (freeLocalNumbers used).drop num) := by
          rw [hsplit]; exact hF
        have hcross := (List.pairwise_append.mp hpw).2.2
        have hyd : y ∈ (freeLocalNumbers used).drop num := by
          have hy2 : y ∈ (freeLocalNumbers used).take num ++
              (freeLocalNumbers used).drop num := by
            rw [hsplit]; exact hyF
          rcases List.mem_append.mp hy2 with h | h
          · exact absurd h hynot
          · exact h
        exact hcross x hx y hyd
      · have hx99 : x ≤ 99 :=
          (mem_freeLocalNumbers.mp ((List.take_subset _ _) hx)).1.2
        omega

/-- Witness for C6: asking for 100 numbers exceeds the 99 free candidates. -/
theorem c6_witness : get_lowest_free_local_numbers 100 [] = none :=
  (c6_lowest_free_allocation 100 []).1 (by decide)

/-- C9: resolving a Named group context (the enforcing variant from
`i3_workspace_groups.py`) against a group set lacking the supplied name fails
with the unknown-group error, and returns the name unchanged when present. -/
theorem c9_named_context_unknown_group (groupName : PyStr)
    (gtw : List (PyStr × List Ws)) :
    (groupName ∉ gtw.map Prod.fst →
      namedGroupContext_get_group_name groupName gtw =
        Except.error (.unknownGroup groupName (gtw.map Prod.fst)))
    ∧ (groupName ∈ gtw.map Prod.fst →
      namedGroupContext_get_group_name groupName gtw = Except.ok groupName) := by
  constructor
  · intro h
    unfold namedGroupContext_get_group_name
    rw [if_neg h]
  · intro h
    unfold namedGroupContext_get_group_name
    rw [if_pos h]

/-- Witness for C9: group "play" is unknown when only "work" exists. -/
theorem c9_witness :
    namedGroupContext_get_group_name "play".data [("work".data, ([] : List Ws))] =
      Except.error (.unknownGroup "play".data ["work".data]) := by
  have h := (c9_named_context_unknown_group "play".data
    [("work".data, ([] : List Ws))]).1 (by decide)
  simpa using h

/-- C10: every successfully allocated local number lies in `[1, 99]`; the
capacity constant 100 itself is never allocated because the scan runs over
`range(1, _MAX_WORKSPACES_PER_GROUP)`. -/
theorem c10_allocation_boundary (num : Nat) (used : List Int) (l : List Int)
    (h : get_lowest_free_local_numbers num used = some l) :
    (∀ x ∈ l, 1 ≤ x ∧ x ≤ 99) ∧ (_MAX_WORKSPACES_PER_GROUP : Int) ∉ l := by
  rw [get_lowest_free_eq] at h
  by_cases hc : ((freeLocalNumbers used).take num).length = num
  · rw [if_pos hc, Option.some_inj] at h
    subst h
    constructor
    · intro x hx
      have hmem := mem_freeLocalNumbers.mp ((List.take_subset _ _) hx)
      exact ⟨hmem.1.1, hmem.1.2⟩
    · intro hmem
      have hver := mem_freeLocalNumbers.mp ((List.take_subset _ _) hmem)
      have := hver.1.2
      norm_num [_MAX_WORKSPACES_PER_GROUP] at this
  · rw [if_neg hc] at h
    exact absurd h (by simp)

/-- Witness for C10 on the allocation `get_lowest_free_local_numbers 1 [] = [1]`. -/
theorem c10_witness : (_MAX_WORKSPACES_PER_GROUP : Int) ∉ ([1] : List Int) :=
  (c10_allocation_boundary 1 [] [1] (by decide)).2

/-- C1 (counterexample): the record with global number 1, empty group, static
name ":a" and empty dynamic name has all string fields free of the delimiter
and satisfies the encoder's precondition, yet decoding its encoding strips
the leading colon of the static name, so the round-trip fails as stated. -/
theorem c1_roundtrip_counterexample :
    (DELIM ∉ ([] : PyStr) ∧ DELIM ∉ [':', 'a']) ∧
    (create_name ⟨some 1, some [], some [':', 'a'], some [], none⟩).map parse_name ≠
      some ⟨some 1, some [], some [':', 'a'], some [], none⟩ := by decide

/-- C1 (amended): round-trip of the name codec holds for every record whose
`group`, `static_name` and `dynamic_name` are strings free of the delimiter,
provided additionally (as the source's format comment demands) that the group
carries no trailing colon, the two name fields carry no leading colon, and the
local number is not the Python-falsy 0. -/
theorem c1_roundtrip_amended (gn : Int) (g st dy : PyStr) (v : Option Int)
    (hgd : DELIM ∉ g) (hstd : DELIM ∉ st) (hdyd : DELIM ∉ dy)
    (hgc : g.getLast? ≠ some ':') (hstc : st.head? ≠ some ':')
    (hdyc : dy.head? ≠ some ':') (hv : v ≠ some 0) :
    (create_name ⟨some gn, some g, some st, some dy, v⟩).map parse_name =
      some ⟨some gn, some g, some st, some dy, v⟩ := by
  have hcreate : create_name ⟨some gn, some g, some st, some dy, v⟩ =
      some (List.intercalate [DELIM]
        [intToStr gn ++ [':'], g,
         (encodeStrSection (some st) (!g.isEmpty)).1,
         (encodeStrSection (some dy) (encodeStrSection (some st) (!g.isEmpty)).2).1,
         (encodeIntSection v (encodeStrSection (some dy)
            (encodeStrSection (some st) (!g.isEmpty)).2).2).1]) := rfl
  rw [hcreate]
  generalize hC2 : encodeStrSection (some st) (!g.isEmpty) = r2
  generalize hC3 : encodeStrSection (some dy) r2.2 = r3
  generalize hC4 : encodeIntSection v r3.2 = r4
  have h2d : DELIM ∉ r2.1 := hC2 ▸ encodeStr_delim hstd (!g.isEmpty)
  have h2dec : maybe_remove_prefix_colons r2.1 = st :=
    hC2 ▸ encodeStr_decode hstc (!g.isEmpty)
  have h3d : DELIM ∉ r3.1 := hC3 ▸ encodeStr_delim hdyd r2.2
  have h3dec : maybe_remove_prefix_colons r3.1 = dy :=
    hC3 ▸ encodeStr_decode hdyc r2.2
  have h4d : DELIM ∉ r4.1 := hC4 ▸ encodeInt_delim v r3.2
  have h4dec : (if r4.1 = [] then none
      else parseInt (maybe_remove_prefix_colons r4.1)) = v :=
    hC4 ▸ encodeInt_decode hv r3.2
  have hsplit : (List.intercalate [DELIM]
      [intToStr gn ++ [':'], g, r2.1, r3.1, r4.1]).splitOn DELIM =
      [intToStr gn ++ [':'], g, r2.1, r3.1, r4.1] := by
    refine List.splitOn_intercalate _ DELIM ?_ (by simp)
    intro l hl
    simp only [List.mem_cons, List.not_mem_nil, or_false] at hl
    rcases hl with rfl | rfl | rfl | rfl | rfl
    · intro hmem
      rcases List.mem_append.mp hmem with hmm | hmm
      · exact delim_not_mem_intToStr gn hmm
      · simp only [List.mem_singleton] at hmm
        exact absurd hmm (by decide)
    · exact hgd
    · exact h2d
    · exact h3d
    · exact h4d
  have h0 : (parse_global_number_section (intToStr gn ++ [':'])).isSome = true := by
    rw [global_section_decode]
    rfl
  rw [Option.map_some', parse_name_of_five hsplit (Or.inr h0)]
  simp only [Option.some_inj, WorkspaceGroupingMetadata.mk.injEq]
  refine ⟨global_section_decode gn, ?_, by rw [h2dec], by rw [h3dec], h4dec⟩
  by_cases hgnil : g = []
  · simp [hgnil]
  · rw [if_neg hgnil, strip_suffix_of_no_colon hgc]

/-- Witness for C1 (amended) on the record (102, "mygroup", "mail", "", 2). -/
theorem c1_roundtrip_witness :
    (create_name ⟨some 102, some "mygroup".data, some "mail".data,
        some [], some 2⟩).map parse_name =
      some ⟨some 102, some "mygroup".data, some "mail".data, some [], some 2⟩ :=
  c1_roundtrip_amended 102 "mygroup".data "mail".data [] (some 2)
    (by decide) (by decide) (by decide) (by decide) (by decide) (by decide) (by decide)

/-- C2 (counterexample): on the unrecognized input ":a" the fallback record's
static name is the sanitized input with one leading colon also removed, not
merely the input with delimiters replaced as the claim states. -/
theorem c2_decode_fallback_counterexample :
    (([':', 'a'] : PyStr).splitOn DELIM).length ≠ 5 ∧
    parse_name [':', 'a'] ≠
      { global_number := none, group := some [],
        static_name := some (specSanitizeReplaceOnly [':', 'a']),
        dynamic_name := none, local_number := none } := by decide

/-- C2 (amended): `parse_name` is total by construction, and whenever the
input does not split into exactly five sections, or its first section is
non-empty and does not parse as an integer, the result is the fallback
record: empty group, absent global number, dynamic name and local number,
and static name the input sanitized (delimiters replaced by a percent sign
and one leading colon removed, as `sanitize_section_value` does). -/
theorem c2_decode_fallback_amended (s : PyStr)
    (h : (s.splitOn DELIM).length ≠ 5 ∨
      ((s.splitOn DELIM)[0]! ≠ [] ∧
        parse_global_number_section ((s.splitOn DELIM)[0]!) = none)) :
    parse_name s =
      { global_number := none, group := some [],
        static_name := some (sanitize_section_value s),
        dynamic_name := none, local_number := none } := by
  have hrec : is_recognized_name_format s = false := by
    unfold is_recognized_name_format
    rcases h with h | ⟨h1, h2⟩
    · simp [h]
    · by_cases hlen : (s.splitOn DELIM).length ≠ 5
      · simp [hlen]
      · simp [hlen, h1, h2]
  simp [parse_name, hrec]

/-- Witness for C2 (amended) on an input with the delimiter in the middle. -/
theorem c2_decode_fallback_witness :
    parse_name ['x', DELIM, 'y'] =
      { global_number := none, group := some [],
        static_name := some (sanitize_section_value ['x', DELIM, 'y']),
        dynamic_name := none, local_number := none } :=
  c2_decode_fallback_amended ['x', DELIM, 'y'] (Or.inl (by decide))

/-! ### Preserve-mode lemmas -/

theorem maxOr0_cons {x : Int} {l : List Int} (h : l ≠ [] ∨ 0 ≤ x) :
    maxOr0 (x :: l) = max x (maxOr0 l) := by
  cases l with
  | nil =>
    rcases h with h | h
    · exact absurd rfl h
    · simp [maxOr0]
      omega
  | cons y ys =>
    show List.foldl max x (y :: ys) = max x (maxOr0 (y :: ys))
    rw [List.foldl_cons, List.foldl_assoc]
    rfl

theorem preserveNumbers_cons (used : List Int) (last : Int) (w : Ws) (ws : List Ws) :
    preserveNumbers used last (w :: ws) =
      match (parse_name w.name).local_number with
      | some n => if n ∈ used then (last + 1) :: preserveNumbers used (last + 1) ws
                  else n :: preserveNumbers used last ws
      | none => (last + 1) :: preserveNumbers used (last + 1) ws := rfl

theorem preserveNumbers_cons_none {w : Ws} (used : List Int) (last : Int) (ws : List Ws)
    (h : (parse_name w.name).local_number = none) :
    preserveNumbers used last (w :: ws) =
      (last + 1) :: preserveNumbers used (last + 1) ws := by
  rw [preserveNumbers_cons, h]

theorem preserveNumbers_cons_mem {w : Ws} {n : Int} {used : List Int}
    (last : Int) (ws : List Ws)
    (h : (parse_name w.name).local_number = some n) (hm : n ∈ used) :
    preserveNumbers used last (w :: ws) =
      (last + 1) :: preserveNumbers used (last + 1) ws := by
  rw [preserveNumbers_cons, h]
  exact if_pos hm

theorem preserveNumbers_cons_not_mem {w : Ws} {n : Int} {used : List Int}
    (last : Int) (ws : List Ws)
    (h : (parse_name w.name).local_number = some n) (hm : n ∉ used) :
    preserveNumbers used last (w :: ws) = n :: preserveNumbers used last ws := by
  rw [preserveNumbers_cons, h]
  exact if_neg hm

theorem claimPreserve_cons_none (used acc : List Int) (os : List (Option Int)) :
    claimPreserve used acc (none :: os) =
      (maxOr0 (acc ++ used) + 1) ::
        claimPreserve used ((maxOr0 (acc ++ used) + 1) :: acc) os := rfl

theorem claimPreserve_cons_mem {n : Int} {used : List Int} (acc : List Int)
    (os : List (Option Int)) (hm : n ∈ used) :
    claimPreserve used acc (some n :: os) =
      (maxOr0 (acc ++ used) + 1) ::
        claimPreserve used ((maxOr0 (acc ++ used) + 1) :: acc) os :=
  if_pos hm

theorem claimPreserve_cons_not_mem {n : Int} {used : List Int} (acc : List Int)
    (os : List (Option Int)) (hm : n ∉ used) :
    claimPreserve used acc (some n :: os) = n :: claimPreserve used acc os :=
  if_neg hm

theorem preserve_eq_claim (used : List Int) :
    ∀ (ws : List Ws) (acc : List Int) (last : Int),
      maxOr0 (acc ++ used) = last →
      preserveNumbers used last ws =
        claimPreserve used acc (ws.map (fun w => (parse_name w.name).local_number)) := by
  intro ws
  induction ws with
  | nil => intro acc last _; rfl
  | cons w ws ih =>
    intro acc last hlast
    have hinv : maxOr0 (((last + 1) :: acc) ++ used) = last + 1 := by
      rw [List.cons_append]
      cases hau : acc ++ used with
      | nil =>
        rw [hau] at hlast
        simp only [maxOr0] at hlast
        subst hlast
        rfl
      | cons z zs =>
        rw [← hau, maxOr0_cons (Or.inl (by rw [hau]; exact List.cons_ne_nil z zs)),
          hlast]
        omega
    rw [List.map_cons]
    cases hp : (parse_name w.name).local_number with
    | none =>
      rw [preserveNumbers_cons_none used last ws hp, claimPreserve_cons_none, hlast]
      exact congrArg _ (ih ((last + 1) :: acc) (last + 1) hinv)
    | some n =>
      by_cases hmem : n ∈ used
      · rw [preserveNumbers_cons_mem last ws hp hmem,
          claimPreserve_cons_mem acc _ hmem, hlast]
        exact congrArg _ (ih ((last + 1) :: acc) (last + 1) hinv)
      · rw [preserveNumbers_cons_not_mem last ws hp hmem,
          claimPreserve_cons_not_mem acc _ hmem]
        exact congrArg _ (ih acc last hlast)

theorem preserveNumbers_get_keep (used : List Int) :
    ∀ (ws : List Ws) (last : Int) (i : Nat) (w : Ws) (n : Int),
      ws[i]? = some w → (parse_name w.name).local_number = some n → n ∉ used →
      (preserveNumbers used last ws)[i]? = some n := by
  intro ws
  induction ws with
  | nil => intro last i w n hi; simp at hi
  | cons w0 ws ih =>
    intro last i w n hi hp hn
    cases i with
    | zero =>
      rw [List.getElem?_cons_zero, Option.some_inj] at hi
      subst hi
      rw [preserveNumbers_cons_not_mem last ws hp hn, List.getElem?_cons_zero]
    | succ j =>
      rw [List.getElem?_cons_succ] at hi
      cases hp0 : (parse_name w0.name).local_number with
      | none =>
        rw [preserveNumbers_cons_none used last ws hp0, List.getElem?_cons_succ]
        exact ih (last + 1) j w n hi hp hn
      | some n0 =>
        by_cases hmem : n0 ∈ used
        · rw [preserveNumbers_cons_mem last ws hp0 hmem, List.getElem?_cons_succ]
          exact ih (last + 1) j w n hi hp hn
        · rw [preserveNumbers_cons_not_mem last ws hp0 hmem, List.getElem?_cons_succ]
          exact ih last j w n hi hp hn

theorem reassignCnt_zero (used : List Int) (ws : List Ws) :
    reassignCnt used ws 0 = 0 := rfl

theorem reassignCnt_cons_succ (used : List Int) (w0 : Ws) (ws : List Ws) (j : Nat) :
    reassignCnt used (w0 :: ws) (j + 1) =
      (if isReassign used w0 then 1 else 0) + reassignCnt used ws j := by
  unfold reassignCnt
  rw [List.take_succ_cons, List.filter_cons]
  by_cases h0 : isReassign used w0
  · rw [if_pos h0, if_pos h0, List.length_cons]
    omega
  · rw [if_neg h0, if_neg h0]
    omega

theorem preserveNumbers_get_reassign (used : List Int) :
    ∀ (ws : List Ws) (last : Int) (i : Nat) (w : Ws),
      ws[i]? = some w → isReassign used w = true →
      (preserveNumbers used last ws)[i]? =
        some (last + (reassignCnt used ws i : Int) + 1) := by
  intro ws
  induction ws with
  | nil => intro last i w hi; simp at hi
  | cons w0 ws ih =>
    intro last i w hi hr
    cases i with
    | zero =>
      rw [List.getElem?_cons_zero, Option.some_inj] at hi
      subst hi
      rw [reassignCnt_zero]
      unfold isReassign at hr
      cases hp : (parse_name w0.name).local_number with
      | none =>
        rw [preserveNumbers_cons_none used last ws hp, List.getElem?_cons_zero]
        congr 1
        push_cast
        ring
      | some n =>
        rw [hp] at hr
        simp only [decide_eq_true_eq] at hr
        rw [preserveNumbers_cons_mem last ws hp hr, List.getElem?_cons_zero]
        congr 1
        push_cast
        ring
    | succ j =>
      rw [List.getElem?_cons_succ] at hi
      rw [reassignCnt_cons_succ]
      cases hp0 : (parse_name w0.name).local_number with
      | none =>
        have h0 : isReassign used w0 = true := by unfold isReassign; rw [hp0]
        rw [preserveNumbers_cons_none used last ws hp0, List.getElem?_cons_succ,
          ih (last + 1) j w hi hr, if_pos h0]
        congr 1
        push_cast
        ring
      | some n0 =>
        by_cases hmem : n0 ∈ used
        · have h0 : isReassign used w0 = true := by
            unfold isReassign
            rw [hp0]
            simpa using hmem
          rw [preserveNumbers_cons_mem last ws hp0 hmem, List.getElem?_cons_succ,
            ih (last + 1) j w hi hr, if_pos h0]
          congr 1
          push_cast
          ring
        · have h0 : ¬ (isReassign used w0 = true) := by
            unfold isReassign
            rw [hp0]
            simpa using hmem
          rw [preserveNumbers_cons_not_mem last ws hp0 hmem, List.getElem?_cons_succ,
            ih last j w hi hr, if_neg h0]
          congr 1
          push_cast
          ring

theorem reassignCnt_succ_of_reassign (used : List Int) (ws : List Ws) (i : Nat) (w : Ws)
    (hi : ws[i]? = some w) (hr : isReassign used w = true) :
    reassignCnt used ws (i + 1) = reassignCnt used ws i + 1 := by
  unfold reassignCnt
  rw [List.take_succ, hi]
  simp [List.filter_append, hr]

theorem reassignCnt_mono (used : List Int) (ws : List Ws) {i j : Nat} (h : i ≤ j) :
    reassignCnt used ws i ≤ reassignCnt used ws j := by
  unfold reassignCnt
  have hpre : ws.take i = (ws.take j).take i := by
    rw [List.take_take, Nat.min_eq_left h]
  rw [hpre]
  exact ((List.take_sublist _ _).filter _).length_le

/-- C3: preserve-mode `compute_local_numbers` equals the claim's algorithm
(`claimPreserve`): each workspace keeps its decoded local number when present
and unclaimed by other monitors, a reassigned workspace receives
`max(used, already-assigned) + 1` with the assigned set extended, and the
values handed to successive reassignments are strictly increasing. -/
theorem c3_preserve_mode_numbering (monitorWs allWs : List Ws) :
    compute_local_numbers monitorWs allWs false =
      some (claimPreserve (otherUsed monitorWs allWs) []
        (monitorWs.map (fun w => (parse_name w.name).local_number)))
    ∧ (∀ (i : Nat) (w : Ws) (n : Int), monitorWs[i]? = some w →
        (parse_name w.name).local_number = some n →
        n ∉ otherUsed monitorWs allWs →
        ((compute_local_numbers monitorWs allWs false).getD [])[i]? = some n)
    ∧ (∀ (i j : Nat) (wi wj : Ws) (vi vj : Int), i < j →
        monitorWs[i]? = some wi → monitorWs[j]? = some wj →
        isReassign (otherUsed monitorWs allWs) wi = true →
        isReassign (otherUsed monitorWs allWs) wj = true →
        ((compute_local_numbers monitorWs allWs false).getD [])[i]? = some vi →
        ((compute_local_numbers monitorWs allWs false).getD [])[j]? = some vj →
        vi < vj) := by
  have hC : compute_local_numbers monitorWs allWs false =
      some (preserveNumbers (otherUsed monitorWs allWs)
        (maxOr0 (otherUsed monitorWs allWs)) monitorWs) := rfl
  refine ⟨?_, ?_, ?_⟩
  · rw [hC]
    exact congrArg some (preserve_eq_claim _ monitorWs [] _ (by rw [List.nil_append]))
  · intro i w n hi hp hn
    rw [hC]
    exact preserveNumbers_get_keep _ monitorWs _ i w n hi hp hn
  · intro i j wi wj vi vj hij hi hj hri hrj hvi hvj
    rw [hC] at hvi hvj
    have hva := preserveNumbers_get_reassign _ monitorWs
      (maxOr0 (otherUsed monitorWs allWs)) i wi hi hri
    have hvb := preserveNumbers_get_reassign _ monitorWs
      (maxOr0 (otherUsed monitorWs allWs)) j wj hj hrj
    have e1 : some vi = some (maxOr0 (otherUsed monitorWs allWs) +
        (reassignCnt (otherUsed monitorWs allWs) monitorWs i : Int) + 1) :=
      hvi.symm.trans hva
    have e2 : some vj = some (maxOr0 (otherUsed monitorWs allWs) +
        (reassignCnt (otherUsed monitorWs allWs) monitorWs j : Int) + 1) :=
      hvj.symm.trans hvb
    rw [Option.some_inj] at e1 e2
    have hcnt : reassignCnt (otherUsed monitorWs allWs) monitorWs i <
        reassignCnt (otherUsed monitorWs allWs) monitorWs j := by
      have hstep := reassignCnt_succ_of_reassign
        (otherUsed monitorWs allWs) monitorWs i wi hi hri
      have hmono := reassignCnt_mono (otherUsed monitorWs allWs) monitorWs
        (show i + 1 ≤ j from hij)
      omega
    omega

/-- Witness for C3: a workspace with unique decoded local number 2 keeps it. -/
theorem c3_witness :
    ((compute_local_numbers [⟨1, ['3', ':', DELIM, DELIM, DELIM, DELIM, '2']⟩]
        [⟨1, ['3', ':', DELIM, DELIM, DELIM, DELIM, '2']⟩] false).getD [])[0]? =
      some 2 :=
  (c3_preserve_mode_numbering _ _).2.1 0
    ⟨1, ['3', ':', DELIM, DELIM, DELIM, DELIM, '2']⟩ 2
    (by decide) (by decide) (by decide)

/-! ### Group-index resolver lemmas -/

theorem filterMap_head_eq_find {α β : Type} (f : α → Option β) (l : List α) :
    (l.filterMap f).head? = (l.find? (fun x => (f x).isSome)).bind f := by
  induction l with
  | nil => rfl
  | cons x xs ih =>
    rw [List.filterMap_cons, List.find?_cons]
    cases hf : f x with
    | none => simpa [hf] using ih
    | some b => simp [hf]

theorem lookup_none_of_not_mem_keys {l : List (PyStr × Int)} {g : PyStr}
    (h : g ∉ l.map Prod.fst) : List.lookup g l = none := by
  induction l with
  | nil => rfl
  | cons p rest ih =>
    obtain ⟨k, b⟩ := p
    simp only [List.map_cons, List.mem_cons, not_or] at h
    rw [List.lookup_cons]
    have hbeq : (g == k) = false := by
      simp only [beq_eq_false_iff_ne, ne_eq]
      exact h.1
    rw [hbeq]
    exact ih h.2

theorem groupRecoveredIndices_cons_none {g0 : PyStr} {wss0 : List Ws}
    {rest : List (PyStr × List Ws)}
    (hh : (wss0.filterMap (fun w => (parse_name w.name).global_number)).head? = none) :
    groupRecoveredIndices ((g0, wss0) :: rest) = groupRecoveredIndices rest := by
  show (match ((wss0.filterMap (fun w => (parse_name w.name).global_number)).head?).map
      (fun n => (g0, global_number_to_group_index n)) with
    | none => groupRecoveredIndices rest
    | some e => e :: groupRecoveredIndices rest) = groupRecoveredIndices rest
  rw [hh]
  rfl

theorem groupRecoveredIndices_cons_some {g0 : PyStr} {wss0 : List Ws}
    {rest : List (PyStr × List Ws)} {n : Int}
    (hh : (wss0.filterMap (fun w => (parse_name w.name).global_number)).head? = some n) :
    groupRecoveredIndices ((g0, wss0) :: rest) =
      (g0, global_number_to_group_index n) :: groupRecoveredIndices rest := by
  show (match ((wss0.filterMap (fun w => (parse_name w.name).global_number)).head?).map
      (fun n => (g0, global_number_to_group_index n)) with
    | none => groupRecoveredIndices rest
    | some e => e :: groupRecoveredIndices rest) = _
  rw [hh]
  rfl

theorem recovered_keys_sub :
    ∀ {gtw : List (PyStr × List Ws)} {p : PyStr × Int},
      p ∈ groupRecoveredIndices gtw → p.1 ∈ gtw.map Prod.fst := by
  intro gtw
  induction gtw with
  | nil => intro p h; simp [groupRecoveredIndices] at h
  | cons q rest ih =>
    intro p h
    obtain ⟨g0, wss0⟩ := q
    rw [List.map_cons]
    cases hh : (wss0.filterMap (fun w => (parse_name w.name).global_number)).head? with
    | none =>
      rw [groupRecoveredIndices_cons_none hh] at h
      exact List.mem_cons_of_mem _ (ih h)
    | some n =>
      rw [groupRecoveredIndices_cons_some hh] at h
      rcases List.mem_cons.mp h with heq | h2
      · rw [heq]
        exact List.mem_cons_self _ _
      · exact List.mem_cons_of_mem _ (ih h2)

theorem lookup_recovered :
    ∀ {gtw : List (PyStr × List Ws)}, (gtw.map Prod.fst).Nodup →
    ∀ {g : PyStr} {wss : List Ws}, (g, wss) ∈ gtw →
    List.lookup g (groupRecoveredIndices gtw) =
      ((wss.filterMap (fun w => (parse_name w.name).global_number)).head?).map
        global_number_to_group_index := by
  intro gtw
  induction gtw with
  | nil => intro _ g wss hmem; simp at hmem
  | cons p rest ih =>
    intro hkeys g wss hmem
    obtain ⟨g0, wss0⟩ := p
    rw [List.map_cons, List.nodup_cons] at hkeys
    rcases List.mem_cons.mp hmem with heq | htail
    · have hg : g = g0 := congrArg Prod.fst heq
      have hw : wss = wss0 := congrArg Prod.snd heq
      rw [hg, hw]
      cases hh : (wss0.filterMap fun w => (parse_name w.name).global_number).head? with
      | none =>
        rw [groupRecoveredIndices_cons_none hh]
        have hnk : g0 ∉ (groupRecoveredIndices rest).map Prod.fst := by
          intro hk
          rw [List.mem_map] at hk
          obtain ⟨q, hq, hfst⟩ := hk
          exact hkeys.1 (hfst ▸ recovered_keys_sub hq)
        rw [lookup_none_of_not_mem_keys hnk]
        rfl
      | some n =>
        rw [groupRecoveredIndices_cons_some hh, List.lookup_cons]
        simp
    · have hg0 : g ≠ g0 := by
        intro hcontra
        subst hcontra
        exact hkeys.1 (List.mem_map.mpr ⟨(g, wss), htail, rfl⟩)
      have hbeq : (g == g0) = false := by
        simp only [beq_eq_false_iff_ne, ne_eq]
        exact hg0
      cases hh : (wss0.filterMap fun w => (parse_name w.name).global_number).head? with
      | none =>
        rw [groupRecoveredIndices_cons_none hh]
        exact ih hkeys.2 htail
      | some n =>
        rw [groupRecoveredIndices_cons_some hh, List.lookup_cons, hbeq]
        exact ih hkeys.2 htail

theorem filterMap_eq_nil_of_all_none {α β : Type} {f : α → Option β} :
    ∀ {l : List α}, (∀ a ∈ l, f a = none) → l.filterMap f = [] := by
  intro l
  induction l with
  | nil => intro _; rfl
  | cons x xs ih =>
    intro h
    rw [List.filterMap_cons, h x (List.mem_cons_self x xs)]
    exact ih (fun a ha => h a (List.mem_cons_of_mem x ha))

theorem get_group_index_of_lookup_some {t : PyStr} {gtw : List (PyStr × List Ws)}
    {i : Int} (h : List.lookup t (groupRecoveredIndices gtw) = some i) :
    get_group_index t gtw = i := by
  unfold get_group_index
  rw [h]

theorem get_group_index_of_lookup_none {t : PyStr} {gtw : List (PyStr × List Ws)}
    (h : List.lookup t (groupRecoveredIndices gtw) = none) :
    get_group_index t gtw =
      (match (groupRecoveredIndices gtw).map Prod.snd with
        | [] => 0
        | v :: vs => vs.foldl max v + 1) := by
  unfold get_group_index
  rw [h]

/-- C7: for an insertion-ordered group mapping (keys unique), `get_group_index`
returns the index recovered through the global-number inverse from the first
workspace of the queried group carrying a decoded global number; when the
queried group has no such workspace, it returns one more than the maximum of
the other groups' recovered indices, and 0 when no group has any. -/
theorem c7_group_index_resolution (target : PyStr) (gtw : List (PyStr × List Ws))
    (hkeys : (gtw.map Prod.fst).Nodup) :
    (∀ (wss : List Ws) (w : Ws) (n : Int), (target, wss) ∈ gtw →
        wss.find? (fun w => (parse_name w.name).global_number.isSome) = some w →
        (parse_name w.name).global_number = some n →
        get_group_index target gtw = global_number_to_group_index n)
    ∧ ((∀ wss, (target, wss) ∈ gtw →
          ∀ w ∈ wss, (parse_name w.name).global_number = none) →
        (groupRecoveredIndices gtw = [] → get_group_index target gtw = 0)
        ∧ (∀ (v : Int) (vs : List Int),
            (groupRecoveredIndices gtw).map Prod.snd = v :: vs →
            get_group_index target gtw = vs.foldl max v + 1)) := by
  constructor
  · intro wss w n hmem hfind hparse
    have hlook := lookup_recovered hkeys hmem
    rw [filterMap_head_eq_find, hfind] at hlook
    have hb : ((some w).bind (fun w => (parse_name w.name).global_number)) = some n := by
      show (parse_name w.name).global_number = some n
      exact hparse
    rw [hb, Option.map_some'] at hlook
    exact get_group_index_of_lookup_some hlook
  · intro hnone
    have hlooknone : List.lookup target (groupRecoveredIndices gtw) = none := by
      by_cases hmemk : target ∈ gtw.map Prod.fst
      · rw [List.mem_map] at hmemk
        obtain ⟨q, hq, hfst⟩ := hmemk
        obtain ⟨g1, wss1⟩ := q
        have hg1 : g1 = target := hfst
        subst hg1
        have h0 := lookup_recovered hkeys hq
        rw [filterMap_eq_nil_of_all_none (hnone wss1 hq)] at h0
        simpa using h0
      · refine lookup_none_of_not_mem_keys ?_
        intro hk
        rw [List.mem_map] at hk
        obtain ⟨q, hq, hfst⟩ := hk
        exact hmemk (hfst ▸ recovered_keys_sub hq)
    constructor
    · intro hnil
      rw [get_group_index_of_lookup_none hlooknone, hnil]
      rfl
    · intro v vs hcons
      rw [get_group_index_of_lookup_none hlooknone, hcons]

/-- Witness for C7: group "b" has no decoded workspace; group "a" has index 1
(from global number 101), so "b" resolves to 2. -/
theorem c7_witness :
    get_group_index "b".data
      [("a".data, [⟨1, ['1', '0', '1', ':', DELIM, 'a', DELIM, DELIM, DELIM]⟩]),
       ("b".data, [])] = 2 := by
  have hnone : ∀ wss, ("b".data, wss) ∈
      [("a".data, [(⟨1, ['1', '0', '1', ':', DELIM, 'a', DELIM, DELIM, DELIM]⟩ : Ws)]),
       ("b".data, ([] : List Ws))] →
      ∀ w ∈ wss, (parse_name w.name).global_number = none := by
    intro wss hmem w hw
    rcases List.mem_cons.mp hmem with heq | hmem2
    · have hfst : "b".data = "a".data := congrArg Prod.fst heq
      exact absurd hfst (by decide)
    · rcases List.mem_cons.mp hmem2 with heq | hmem3
      · have hws : wss = [] := congrArg Prod.snd heq
        subst hws
        simp at hw
      · simp at hmem3
  have h := ((c7_group_index_resolution "b".data
      [("a".data, [⟨1, ['1', '0', '1', ':', DELIM, 'a', DELIM, DELIM, DELIM]⟩]),
       ("b".data, [])] (by decide)).2 hnone).2 1 [] (by decide)
  rw [h]
  decide

/-! ### Organize-pass lemmas -/

theorem renameLoop_commands (mi gi : Int) (g : PyStr) :
    ∀ (items : List (Nat × Int)) (store : List Ws)
      (pairs cmds : List (PyStr × PyStr)) (store2 : List Ws),
      renameLoop mi gi g items store = some (pairs, cmds, store2) →
      cmds = pairs.filter (fun p => p.1 ≠ p.2) := by
  intro items
  induction items with
  | nil =>
    intro store pairs cmds store2 h
    simp only [renameLoop, Option.some_inj, Prod.mk.injEq] at h
    obtain ⟨h1, h2, _⟩ := h
    subst h1
    subst h2
    rfl
  | cons item rest ih =>
    obtain ⟨wsId, ln⟩ := item
    intro store pairs cmds store2 h
    rw [renameLoop] at h
    cases hg : compute_global_number mi gi ln with
    | none => simp [hg] at h
    | some gnum =>
      simp only [hg, Option.some_bind] at h
      cases hc : create_name
          (overwriteMetadata (parse_name (storeName store wsId)) g ln gnum) with
      | none => simp [hc] at h
      | some newName =>
        simp only [hc, Option.some_bind] at h
        cases hr : renameLoop mi gi g rest (storeSetName store wsId newName) with
        | none => simp [hr] at h
        | some trip =>
          obtain ⟨pairs1, cmds1, store1⟩ := trip
          simp only [hr, Option.map_some', Option.some_inj, Prod.mk.injEq] at h
          obtain ⟨hp, hc2, _⟩ := h
          subst hp
          subst hc2
          have htail := ih (storeSetName store wsId newName) pairs1 cmds1 store1 hr
          rw [List.filter_cons, htail]
          unfold rename_workspace
          by_cases heq : storeName store wsId = newName
          · simp [heq]
          · simp [heq]

theorem organizeGroups_commands (mi : Int) (rb : Bool)
    (groupAll : List (PyStr × List Nat)) :
    ∀ (groups : List (PyStr × List Nat)) (gi : Int) (store : List Ws)
      (r : OrganizeResult),
      organizeGroups mi rb groupAll groups gi store = some r →
      r.commands = r.renames.filter (fun p => p.1 ≠ p.2) := by
  intro groups
  induction groups with
  | nil =>
    intro gi store r h
    simp only [organizeGroups, Option.some_inj] at h
    subst h
    rfl
  | cons gp rest ih =>
    obtain ⟨g, wsIds⟩ := gp
    intro gi store r h
    rw [organizeGroups] at h
    cases hcl : compute_local_numbers
        (wsIds.map (fun i => Ws.mk i (storeName store i)))
        ((dictGet groupAll g []).map (fun i => Ws.mk i (storeName store i))) rb with
    | none => simp [hcl] at h
    | some lns =>
      simp only [hcl, Option.some_bind] at h
      cases hrl : renameLoop mi gi g (wsIds.zip lns) store with
      | none => simp [hrl] at h
      | some trip =>
        obtain ⟨pairs, cmds, store1⟩ := trip
        simp only [hrl, Option.some_bind] at h
        cases hog : organizeGroups mi rb groupAll rest (gi + 1) store1 with
        | none => simp [hog] at h
        | some r2 =>
          simp only [hog, Option.map_some', Option.some_inj] at h
          subst h
          show cmds ++ r2.commands = (pairs ++ r2.renames).filter (fun p => p.1 ≠ p.2)
          rw [List.filter_append,
            renameLoop_commands mi gi g (wsIds.zip lns) store pairs cmds store1 hrl,
            ih (gi + 1) store1 r2 hog]

theorem lowest_free_nodup {num : Nat} {used lns : List Int}
    (h : get_lowest_free_local_numbers num used = some lns) :
    lns.Pairwise (· ≠ ·) := by
  rw [get_lowest_free_eq] at h
  by_cases hc : ((freeLocalNumbers used).take num).length = num
  · rw [if_pos hc, Option.some_inj] at h
    subst h
    exact (List.Pairwise.sublist (List.take_sublist _ _)
      (freeLocalNumbers_pairwise used)).imp (fun hab => ne_of_lt hab)
  · rw [if_neg hc] at h
    exact absurd h (by simp)

theorem pairwise_zip_right {α β : Type} {R : β → β → Prop} :
    ∀ (xs : List α) (ys : List β), ys.Pairwise R →
      (xs.zip ys).Pairwise (fun p q => R p.2 q.2) := by
  intro xs
  induction xs with
  | nil => intro ys _; simp
  | cons x xs ih =>
    intro ys h
    cases ys with
    | nil => simp
    | cons y ys =>
      rw [List.zip_cons_cons, List.pairwise_cons]
      rw [List.pairwise_cons] at h
      constructor
      · intro q hq
        exact h.1 q.2 (List.of_mem_zip hq).2
      · exact ih ys h.2

theorem organizeGroups_assign_keys (mi : Int) (rb : Bool)
    (groupAll : List (PyStr × List Nat)) :
    ∀ (groups : List (PyStr × List Nat)) (gi : Int) (store : List Ws)
      (r : OrganizeResult),
      organizeGroups mi rb groupAll groups gi store = some r →
      ∀ a ∈ r.assignments, a.2.1 ∈ groups.map Prod.fst := by
  intro groups
  induction groups with
  | nil =>
    intro gi store r h
    simp only [organizeGroups, Option.some_inj] at h
    subst h
    intro a ha
    simp at ha
  | cons gp rest ih =>
    obtain ⟨g, wsIds⟩ := gp
    intro gi store r h
    rw [organizeGroups] at h
    cases hcl : compute_local_numbers
        (wsIds.map (fun i => Ws.mk i (storeName store i)))
        ((dictGet groupAll g []).map (fun i => Ws.mk i (storeName store i))) rb with
    | none => simp [hcl] at h
    | some lns =>
      simp only [hcl, Option.some_bind] at h
      cases hrl : renameLoop mi gi g (wsIds.zip lns) store with
      | none => simp [hrl] at h
      | some trip =>
        obtain ⟨pairs, cmds, store1⟩ := trip
        simp only [hrl, Option.some_bind] at h
        cases hog : organizeGroups mi rb groupAll rest (gi + 1) store1 with
        | none => simp [hog] at h
        | some r2 =>
          simp only [hog, Option.map_some', Option.some_inj] at h
          subst h
          intro a ha
          rw [List.map_cons]
          have ha2 : a ∈ (wsIds.zip lns).map (fun p => (p.1, g, p.2)) ++
              r2.assignments := ha
          rcases List.mem_append.mp ha2 with hh | hh
          · rw [List.mem_map] at hh
            obtain ⟨p, _, rfl⟩ := hh
            exact List.mem_cons_self _ _
          · exact List.mem_cons_of_mem _ (ih (gi + 1) store1 r2 hog a hh)

theorem organizeGroups_assign_pairwise (mi : Int)
    (groupAll : List (PyStr × List Nat)) :
    ∀ (groups : List (PyStr × List Nat)) (gi : Int) (store : List Ws)
      (r : OrganizeResult),
      (groups.map Prod.fst).Nodup →
      organizeGroups mi true groupAll groups gi store = some r →
      r.assignments.Pairwise (fun a b => a.2 ≠ b.2) := by
  intro groups
  induction groups with
  | nil =>
    intro gi store r _ h
    simp only [organizeGroups, Option.some_inj] at h
    subst h
    simp
  | cons gp rest ih =>
    obtain ⟨g, wsIds⟩ := gp
    intro gi store r hkeys h
    rw [List.map_cons, List.nodup_cons] at hkeys
    rw [organizeGroups] at h
    cases hcl : compute_local_numbers
        (wsIds.map (fun i => Ws.mk i (storeName store i)))
        ((dictGet groupAll g []).map (fun i => Ws.mk i (storeName store i))) true with
    | none => simp [hcl] at h
    | some lns =>
      simp only [hcl, Option.some_bind] at h
      cases hrl : renameLoop mi gi g (wsIds.zip lns) store with
      | none => simp [hrl] at h
      | some trip =>
        obtain ⟨pairs, cmds, store1⟩ := trip
        simp only [hrl, Option.some_bind] at h
        cases hog : organizeGroups mi true groupAll rest (gi + 1) store1 with
        | none => simp [hog] at h
        | some r2 =>
          simp only [hog, Option.map_some', Option.some_inj] at h
          subst h
          show ((wsIds.zip lns).map (fun p => (p.1, g, p.2)) ++
            r2.assignments).Pairwise (fun a b => a.2 ≠ b.2)
          have hlnsnodup : lns.Pairwise (· ≠ ·) := lowest_free_nodup hcl
          refine List.pairwise_append.mpr
            ⟨?_, ih (gi + 1) store1 r2 hkeys.2 hog, ?_⟩
          · rw [List.pairwise_map]
            refine (pairwise_zip_right wsIds lns hlnsnodup).imp ?_
            intro a b hne hcontra
            exact hne (congrArg (fun q => q.2) hcontra)
          · intro a ha b hb
            rw [List.mem_map] at ha
            obtain ⟨p, _, rfl⟩ := ha
            have hbk := organizeGroups_assign_keys mi true groupAll rest
              (gi + 1) store1 r2 hog b hb
            intro hcontra
            have hgk : g ∈ rest.map Prod.fst := by
              rw [show g = b.2.1 from congrArg (fun q => q.1) hcontra]
              exact hbk
            exact hkeys.1 hgk

/-- C4 (counterexample): the claim fails in preserve mode: organizing the
single group "g" whose two monitor workspaces both carry decoded local
number 1 (and no other monitors) keeps both numbers, so two distinct
workspaces end the pass with the identical pair ("g", 1). -/
theorem c4_organize_uniqueness_counterexample : ¬ organizeAssignsDistinctPairs := by
  intro h
  have hrun : organize_workspace_groups 0 false [("g".data, [1, 2])]
      [⟨1, ['1', ':', DELIM, 'g', DELIM, DELIM, DELIM, ':', '1']⟩,
       ⟨2, ['2', ':', DELIM, 'g', DELIM, DELIM, DELIM, ':', '1']⟩] =
      some ((organize_workspace_groups 0 false [("g".data, [1, 2])]
        [⟨1, ['1', ':', DELIM, 'g', DELIM, DELIM, DELIM, ':', '1']⟩,
         ⟨2, ['2', ':', DELIM, 'g', DELIM, DELIM, DELIM, ':', '1']⟩]).getD
          ⟨[], [], [], []⟩) := by decide
  have hp := h 0 false [("g".data, [1, 2])]
    [⟨1, ['1', ':', DELIM, 'g', DELIM, DELIM, DELIM, ':', '1']⟩,
     ⟨2, ['2', ':', DELIM, 'g', DELIM, DELIM, DELIM, ':', '1']⟩] _ hrun
  have hnot : ¬ ((organize_workspace_groups 0 false [("g".data, [1, 2])]
      [⟨1, ['1', ':', DELIM, 'g', DELIM, DELIM, DELIM, ':', '1']⟩,
       ⟨2, ['2', ':', DELIM, 'g', DELIM, DELIM, DELIM, ':', '1']⟩]).getD
        ⟨[], [], [], []⟩).assignments.Pairwise (fun a b => a.1 ≠ b.1 → a.2 ≠ b.2) := by
    decide
  exact hnot hp

/-- C4 (amended): in renumber mode, for an ordered sequence with pairwise
distinct group keys, every two processed workspaces leave the organize pass
with distinct (group, local number) assignments. -/
theorem c4_organize_uniqueness_amended (mi : Int)
    (groups : List (PyStr × List Nat)) (store : List Ws) (r : OrganizeResult)
    (hkeys : (groups.map Prod.fst).Nodup)
    (h : organize_workspace_groups mi true groups store = some r) :
    r.assignments.Pairwise (fun a b => a.2 ≠ b.2) := by
  unfold organize_workspace_groups at h
  exact organizeGroups_assign_pairwise mi
    ((get_group_to_workspaces store).map (fun p => (p.1, p.2.map Ws.id)))
    groups 0 store r hkeys h

/-- Witness for C4 (amended): a renumber pass over two singleton groups. -/
theorem c4_witness :
    ((organize_workspace_groups 0 true [("g".data, [1]), ("h".data, [2])]
      [⟨1, ['1', ':', DELIM, 'g', DELIM, DELIM, DELIM, ':', '1']⟩,
       ⟨2, ['2', ':', DELIM, 'h', DELIM, DELIM, DELIM, ':', '1']⟩]).getD
        ⟨[], [], [], []⟩).assignments.Pairwise (fun a b => a.2 ≠ b.2) :=
  c4_organize_uniqueness_amended 0 [("g".data, [1]), ("h".data, [2])]
    [⟨1, ['1', ':', DELIM, 'g', DELIM, DELIM, DELIM, ':', '1']⟩,
     ⟨2, ['2', ':', DELIM, 'h', DELIM, DELIM, DELIM, ':', '1']⟩] _
    (by decide) (by decide)

/-- C8: during an organize pass a rename command reaches the window manager
exactly for the workspaces whose recomputed name differs from the current
one; identical renames are filtered out by the proxy. -/
theorem c8_rename_no_op (mi : Int) (renumber : Bool)
    (groups : List (PyStr × List Nat)) (store : List Ws) (r : OrganizeResult)
    (h : organize_workspace_groups mi renumber groups store = some r) :
    r.commands = r.renames.filter (fun p => p.1 ≠ p.2) := by
  unfold organize_workspace_groups at h
  exact organizeGroups_commands mi renumber
    ((get_group_to_workspaces store).map (fun p => (p.1, p.2.map Ws.id)))
    groups 0 store r h

/-- Witness for C8: a pass that recomputes an unchanged name issues no
command while still recording the (old, new) pair. -/
theorem c8_witness :
    ((organize_workspace_groups 0 false [("g".data, [1])]
      [⟨1, ['1', ':', DELIM, 'g', DELIM, DELIM, DELIM, ':', '1']⟩]).getD
        ⟨[], [], [], []⟩).commands =
    ((organize_workspace_groups 0 false [("g".data, [1])]
      [⟨1, ['1', ':', DELIM, 'g', DELIM, DELIM, DELIM, ':', '1']⟩]).getD
        ⟨[], [], [], []⟩).renames.filter (fun p => p.1 ≠ p.2) :=
  c8_rename_no_op 0 false [("g".data, [1])]
    [⟨1, ['1', ':', DELIM, 'g', DELIM, DELIM, DELIM, ':', '1']⟩] _ (by decide)
